import Mathlib

/-!
Verification of the kenwoodutil radio memory-channel protocol client
(`main.go`): the command/response transaction layer, the memory-channel
record codec (numeric `ME` line and name `MN` line), and the memory-bank
orchestration (`ReadMemory`, `WriteChannel`, `OccupedChannels`).

Modelling conventions:
- Go's fixed-width unsigned integer fields (`uint8`/`uint16`/`uint32`) are
  modelled as `Nat`; the type bound enters the scan model as an explicit
  range check (Go's `Sscanf` fails with a range error when a scanned value
  overflows the target type).
- Go strings are modelled as `String` / `List Char`; byte-oriented
  operations (`len`, slicing, `strings.Split`) are modelled on characters,
  which coincides with Go on single-byte (ASCII) content, the only content
  this serial protocol produces.
- `fmt.Sprintf`'s `%0Nd` verb is modelled by `pad0` (decimal digits,
  left-padded with zeros to width `N`, wider values printed in full), and
  `fmt.Sscanf`'s `%Nd` verb by `scanNum` (skip leading blanks, read at
  most `N` digits greedily, fail on no digit or on overflow of the target
  type).  `Sscanf` reports an error whenever fewer than all verbs of the
  format string are matched; the scan model returns the count of
  successfully parsed operands together with the overall result.
- The serial transport is modelled by an oracle `Dev.outcomes` giving the
  outcome of the k-th transaction (write failure, read failure, or a reply
  line), together with a transaction counter and the trace of command
  lines sent.
-/

namespace Kenwood

/-- Decimal digit rendering of a natural number, fuel-based so that it
reduces definitionally (the fuel `n + 1` always suffices). Models the
digit sequence produced by Go's `%d` formatting. -/
def decReprAux : Nat → Nat → List Char
  | 0, _ => []
  | fuel + 1, n =>
    if n < 10 then [Nat.digitChar n]
    else decReprAux fuel (n / 10) ++ [Nat.digitChar (n % 10)]

/-- Decimal digit string of a natural number. -/
def decRepr (n : Nat) : List Char := decReprAux (n + 1) n

/-- Model of `fmt.Sprintf`'s zero-padded decimal verb `%0wd`: the decimal
digits of `n`, left-padded with zeros to minimum width `w` (values with
more than `w` digits are printed in full). -/
def pad0 (w n : Nat) : List Char :=
  List.replicate (w - (decRepr n).length) '0' ++ decRepr n

/-- Blank characters skipped by a numeric scan verb before the digits.
(Go's scanner skips a larger whitespace class; no other whitespace occurs
inside the lines of this protocol.) -/
def isScanSpace (c : Char) : Bool := c == ' ' || c == '\t'

/-- Greedily take at most `w` leading decimal digits. Models the
width-limited token read of a `%wd` scan verb. -/
def takeDigits : Nat → List Char → List Char × List Char
  | 0, cs => ([], cs)
  | _ + 1, [] => ([], [])
  | w + 1, c :: cs =>
    if c.isDigit then
      let p := takeDigits w cs
      (c :: p.1, p.2)
    else ([], c :: cs)

/-- Numeric value of a digit string, most significant first, with
accumulator. -/
def digitsVal : Nat → List Char → Nat
  | acc, [] => acc
  | acc, c :: cs => digitsVal (10 * acc + (c.toNat - 48)) cs

/-- Model of the scan verb `%0wd` into an unsigned integer type with
`bound` values: skip leading blanks, read at most `w` digits (at least
one), fail if the value does not fit the target type. -/
def scanNum (w bound : Nat) (cs : List Char) : Option (Nat × List Char) :=
  if (takeDigits w (cs.dropWhile isScanSpace)).1.isEmpty then none
  else if digitsVal 0 (takeDigits w (cs.dropWhile isScanSpace)).1 < bound then
    some (digitsVal 0 (takeDigits w (cs.dropWhile isScanSpace)).1,
      (takeDigits w (cs.dropWhile isScanSpace)).2)
  else none

/-- One radio memory slot (`MemoryEntry` in `main.go`). Field order is the
struct order, which is the wire order of the 16 numeric fields of the `ME`
line, followed by the name. -/
structure MemoryEntry where
  Number : Nat
  RXFrequency : Nat
  RXStepSize : Nat
  ShiftDirection : Nat
  ReverseEnabled : Nat
  ToneEnabled : Nat
  CTCSSEnabled : Nat
  DCSEnabled : Nat
  ToneFrequency : Nat
  CTCSSFrequency : Nat
  DCSFrequency : Nat
  OffsetFrequency : Nat
  Mode : Nat
  TXFrequency : Nat
  TXStepSize : Nat
  LockOut : Nat
  Name : String
deriving DecidableEq

/-- The Go zero value `MemoryEntry\x7b\x7d`: all numeric fields 0, empty name. -/
def emptyEntry : MemoryEntry :=
  ⟨0, 0, 0, 0, 0, 0, 0, 0, 0, 0, 0, 0, 0, 0, 0, 0, ""⟩

instance : Inhabited MemoryEntry := ⟨emptyEntry⟩

/-- The 16 numeric fields of the `ME` wire format, in order: scan width
(from the `MEFormat` string
`ME %03d,%010d,%1d,%1d,%1d,%1d,%1d,%1d,%02d,%02d,%03d,%08d,%1d,%010d,%1d,%1d`)
paired with the cardinality of the Go struct field's type
(`uint16`, `uint32`, `uint8`, ...). -/
def MESpec : List (Nat × Nat) :=
  [(3, 65536), (10, 4294967296), (1, 256), (1, 256), (1, 256), (1, 256),
   (1, 256), (1, 256), (2, 65536), (2, 65536), (3, 65536), (8, 4294967296),
   (1, 256), (10, 4294967296), (1, 256), (1, 256)]

/-- Match the literal `,` separator preceding a field when one is
expected (`sep = true`). -/
def sepStep (sep : Bool) (cs : List Char) : Option (List Char) :=
  if sep then
    match cs with
    | ',' :: t => some t
    | _ => none
  else some cs

/-- Scan a comma-separated run of numeric fields (`sep` says whether a
`,` separator is expected before the next field).  Returns the number of
operands successfully scanned — Go's `Sscanf` result `n` — and, when every
field matched, the values with the remaining input. -/
def scanFields : List (Nat × Nat) → Bool → List Char →
    Nat × Option (List Nat × List Char)
  | [], _, cs => (0, some ([], cs))
  | (w, b) :: ws, sep, cs =>
    match sepStep sep cs with
    | none => (0, none)
    | some cs2 =>
      match scanNum w b cs2 with
      | none => (0, none)
      | some (v, cs3) =>
        ((scanFields ws true cs3).1 + 1,
          (scanFields ws true cs3).2.map fun q => (v :: q.1, q.2))

/-- Format a comma-separated run of (width, value) fields, each via `%0wd`
(`sep` says whether a `,` separator precedes the next field). -/
def formatFields : Bool → List (Nat × Nat) → List Char
  | _, [] => []
  | sep, (w, v) :: ws =>
    (if sep then [','] else []) ++ pad0 w v ++ formatFields true ws

/-- The first 16 struct fields of an entry, in order, paired with their
`MEFormat` widths: the model of `StructFieldValues()[:16]` as consumed by
`Sprintf` with `MEFormat`. -/
def fieldWidthVals (e : MemoryEntry) : List (Nat × Nat) :=
  [(3, e.Number), (10, e.RXFrequency), (1, e.RXStepSize),
   (1, e.ShiftDirection), (1, e.ReverseEnabled), (1, e.ToneEnabled),
   (1, e.CTCSSEnabled), (1, e.DCSEnabled), (2, e.ToneFrequency),
   (2, e.CTCSSFrequency), (3, e.DCSFrequency), (8, e.OffsetFrequency),
   (1, e.Mode), (10, e.TXFrequency), (1, e.TXStepSize), (1, e.LockOut)]

/-- `WriteChannelLine`: `fmt.Sprintf(MEFormat, m.StructFieldValues()[:16]...)`. -/
def WriteChannelLine (e : MemoryEntry) : String :=
  String.mk ('M' :: 'E' :: ' ' :: formatFields false (fieldWidthVals e))

/-- Model of `fmt.Sscanf(line, MEFormat, ...)`: literal `ME`, a format
blank (matching zero or more blanks; each `%d` verb also skips leading
blanks itself), then the 16 comma-separated numeric fields.  Returns the
operand count and, on full success, the 16 values. -/
def scanME (cs : List Char) : Nat × Option (List Nat) :=
  match cs with
  | 'M' :: 'E' :: rest =>
    let p := scanFields MESpec false rest
    (p.1, p.2.map Prod.fst)
  | _ => (0, none)

/-- Assign 16 scanned values to the first 16 struct fields in order: the
model of scanning through `StructFieldPointers()[:16]`. -/
def setFields (m : MemoryEntry) : List Nat → MemoryEntry
  | [n, rx, rss, sd, re, te, ce, de, tf, cf, df, of, md, tx, tss, lo] =>
    ⟨n, rx, rss, sd, re, te, ce, de, tf, cf, df, of, md, tx, tss, lo, m.Name⟩
  | _ => m

/-- Errors surfaced by the client (§7 of the spec): transport failures,
device rejection (`?` reply, carrying the offending command), malformed
response lines, and precondition violations. Go wraps these in message
context as they propagate; the kind and payload are preserved. -/
inductive RErr where
  | transport (msg : String)
  | rejected (command : String)
  | malformed (line : String)
  | precondition (channel : Nat)
deriving DecidableEq

/-- `ReadChannelLine`: the empty-marker line leaves the record unchanged;
otherwise scan the 16 fields with `MEFormat`; a scan error is malformed,
and fewer than 15 scanned operands is also reported malformed. -/
def ReadChannelLine (m : MemoryEntry) (line : String) : Except RErr MemoryEntry :=
  if line = "N\r" then Except.ok m
  else
    let p := scanME line.data
    match p.2 with
    | none => Except.error (RErr.malformed line)
    | some vs =>
      if p.1 < 15 then Except.error (RErr.malformed "ME command returned less items")
      else Except.ok (setFields m vs)

/-- Model of `strings.TrimSuffix(line, "\r")`: drop one trailing carriage
return if present. -/
def trimCR (cs : List Char) : List Char :=
  if cs.getLast? = some '\r' then cs.dropLast else cs

/-- Model of `strings.Split(s, ",")`: the runs of characters between
commas (always at least one item). -/
def splitComma : List Char → List (List Char)
  | [] => [[]]
  | c :: t =>
    if c = ',' then [] :: splitComma t
    else
      match splitComma t with
      | [] => [[c]]
      | h :: r => (c :: h) :: r

/-- `ReadNameLine`: the empty-marker line leaves the record unchanged;
otherwise strip a trailing `\r`, split on commas, require the first item
to start with `MN`; a missing or empty second item sets the name to the
empty string, otherwise the name is the second item verbatim. -/
def ReadNameLine (m : MemoryEntry) (line : String) : Except RErr MemoryEntry :=
  if line = "N\r" then Except.ok m
  else
    let cs := trimCR line.data
    let items := splitComma cs
    if List.isPrefixOf ['M', 'N'] (items.headD []) then
      match items with
      | _ :: second :: _ =>
        if second = [] then Except.ok { m with Name := "" }
        else Except.ok { m with Name := String.mk second }
      | _ => Except.ok { m with Name := "" }
    else Except.error (RErr.malformed (String.mk cs))

/-- The name truncation of `WriteNameLine`: a name longer than 8
characters is cut to its first 8 (Go measures and slices bytes; on the
single-byte characters of this protocol that is the same as characters). -/
def truncName (s : String) : String :=
  if s.data.length > 8 then String.mk (s.data.take 8) else s

/-- `WriteNameLine`: `fmt.Sprintf(MNFormat, m.Number, n)` with the
truncated name (`MNFormat = "MN %03d,%s"`). -/
def WriteNameLine (e : MemoryEntry) : String :=
  String.mk ('M' :: 'N' :: ' ' ::
    (pad0 3 e.Number ++ ',' :: (truncName e.Name).data))

/-- In-range entry (§8): every numeric field fits both its Go integer
type and its fixed digit width in the `ME` wire format. -/
def InRange (e : MemoryEntry) : Prop :=
  e.Number ≤ 999 ∧ e.RXFrequency ≤ 4294967295 ∧ e.RXStepSize ≤ 9 ∧
  e.ShiftDirection ≤ 9 ∧ e.ReverseEnabled ≤ 9 ∧ e.ToneEnabled ≤ 9 ∧
  e.CTCSSEnabled ≤ 9 ∧ e.DCSEnabled ≤ 9 ∧ e.ToneFrequency ≤ 99 ∧
  e.CTCSSFrequency ≤ 99 ∧ e.DCSFrequency ≤ 999 ∧
  e.OffsetFrequency ≤ 99999999 ∧ e.Mode ≤ 9 ∧
  e.TXFrequency ≤ 4294967295 ∧ e.TXStepSize ≤ 9 ∧ e.LockOut ≤ 9

instance (e : MemoryEntry) : Decidable (InRange e) := by
  unfold InRange; infer_instance

/-- Outcome of one request/response transaction on the serial transport:
the underlying write failed, the underlying read failed, or the device
replied with a line (read up to and including the `\r` terminator). -/
inductive TxOutcome where
  | writeFail (msg : String)
  | readFail (msg : String)
  | reply (line : String)

/-- `WriteReadString`: write the command (a write failure is a transport
error), read one reply line (a read failure is a transport error); a reply
starting with `?` fails as rejected, carrying the command text; otherwise
the reply line is returned. -/
def WriteReadString (command : String) (t : TxOutcome) : Except RErr String :=
  match t with
  | TxOutcome.writeFail msg => Except.error (RErr.transport msg)
  | TxOutcome.readFail msg => Except.error (RErr.transport msg)
  | TxOutcome.reply line =>
    if List.isPrefixOf ['?'] line.data then Except.error (RErr.rejected command)
    else Except.ok line

/-- The serial device as seen through the transaction layer: an oracle
giving the outcome of the k-th transaction, the index of the next
transaction, and the trace of command lines issued so far. -/
structure Dev where
  outcomes : Nat → TxOutcome
  idx : Nat
  sent : List String

/-- Perform one transaction: issue the command (recording it in the
trace), consume the next outcome. -/
def transact (command : String) (d : Dev) : Except RErr String × Dev :=
  (WriteReadString command (d.outcomes d.idx),
   ⟨d.outcomes, d.idx + 1, d.sent ++ [command]⟩)

/-- `fmt.Sprintf(MECommandFormat, channel)` with `MECommandFormat = "ME %03d\r"`. -/
def MECommand (channel : Nat) : String :=
  String.mk ('M' :: 'E' :: ' ' :: (pad0 3 channel ++ ['\r']))

/-- `fmt.Sprintf(MNCommandFormat, channel)` with `MNCommandFormat = "MN %03d\r"`. -/
def MNCommand (channel : Nat) : String :=
  String.mk ('M' :: 'N' :: ' ' :: (pad0 3 channel ++ ['\r']))

/-- `fmt.Sprintf("ME %03d,C\r", channel)`: the clear-channel command. -/
def clearCommand (channel : Nat) : String :=
  String.mk ('M' :: 'E' :: ' ' :: (pad0 3 channel ++ [',', 'C', '\r']))

/-- `ReadChannel`: read the numeric line then the name line for a channel,
decode both into a fresh zero record; every failure path returns the Go
zero value `MemoryEntry\x7b\x7d` together with the error (mirroring Go's
`(MemoryEntry, error)` return). -/
def ReadChannel (channel : Nat) (d : Dev) : (MemoryEntry × Option RErr) × Dev :=
  let p1 := transact (MECommand channel) d
  match p1.1 with
  | Except.error e => ((emptyEntry, some e), p1.2)
  | Except.ok chline =>
    let p2 := transact (MNCommand channel) p1.2
    match p2.1 with
    | Except.error e => ((emptyEntry, some e), p2.2)
    | Except.ok nameline =>
      match ReadChannelLine emptyEntry chline with
      | Except.error e => ((emptyEntry, some e), p2.2)
      | Except.ok m1 =>
        match ReadNameLine m1 nameline with
        | Except.error e => ((emptyEntry, some e), p2.2)
        | Except.ok m2 => ((m2, none), p2.2)

/-- The channel-selection loop of `WriteChannel`: the first entry of the
bank whose `Number` field equals `uint16(channel)` (modelled as
`channel % 65536`), or the zero record if none matches. -/
def findChannel (mem : List MemoryEntry) (channel : Nat) : MemoryEntry :=
  match mem with
  | [] => emptyEntry
  | m :: rest =>
    if m.Number = channel % 65536 then m else findChannel rest channel

/-- `WriteChannel`: select the record by `Number`-match; an empty record
(`RXFrequency == 0`) is a precondition error issued before any
transaction; otherwise clear the channel, send the encoded numeric line,
send the encoded name line (each line sent with a `\r` terminator),
aborting on the first failing transaction. -/
def WriteChannel (mem : List MemoryEntry) (channel : Nat) (d : Dev) :
    Except RErr Unit × Dev :=
  let ch := findChannel mem channel
  if ch.RXFrequency = 0 then (Except.error (RErr.precondition channel), d)
  else
    let p1 := transact (clearCommand channel) d
    match p1.1 with
    | Except.error e => (Except.error e, p1.2)
    | Except.ok _ =>
      let p2 := transact (WriteChannelLine ch ++ "\r") p1.2
      match p2.1 with
      | Except.error e => (Except.error e, p2.2)
      | Except.ok _ =>
        let p3 := transact (WriteNameLine ch ++ "\r") p2.2
        match p3.1 with
        | Except.error e => (Except.error e, p3.2)
        | Except.ok _ => (Except.ok (), p3.2)

/-- The loop body of `ReadMemory`, reading `fuel` consecutive channels
starting at `i` and collecting the records in order; aborts on the first
failing channel. (Go writes into the pre-allocated 1000-slot array and
aborts on first failure; on success the array holds exactly the collected
records, which is the case the claims concern.) -/
def ReadMemoryFrom (i : Nat) : Nat → Dev → Except RErr (List MemoryEntry) × Dev
  | 0, d => (Except.ok [], d)
  | f + 1, d =>
    let p := ReadChannel i d
    match p.1.2 with
    | some e => (Except.error e, p.2)
    | none =>
      let q := ReadMemoryFrom (i + 1) f p.2
      match q.1 with
      | Except.ok ms => (Except.ok (p.1.1 :: ms), q.2)
      | Except.error e => (Except.error e, q.2)

/-- `ReadMemory`: read channels 0 through 999 in ascending order. -/
def ReadMemory (d : Dev) : Except RErr (List MemoryEntry) × Dev :=
  ReadMemoryFrom 0 1000 d

/-- `OccupedChannels`: the append loop collecting, in bank order, the
entries whose `RXFrequency` is nonzero. -/
def OccupedChannels (mem : List MemoryEntry) : List MemoryEntry :=
  mem.foldl (fun v m => if m.RXFrequency ≠ 0 then v ++ [m] else v) []

/-- A device whose every transaction yields the empty-channel marker reply
`N\r` (every channel reported empty). -/
def devN : Dev := ⟨fun _ => TxOutcome.reply "N\r", 0, []⟩

/-- The last 15 fields of the `ME` format as (width, type bound, value)
triples of a given entry; the head field (channel number, width 3,
`uint16`) is handled separately because no comma precedes it. -/
def meTriplesTail (e : MemoryEntry) : List (Nat × Nat × Nat) :=
  [(10, 4294967296, e.RXFrequency), (1, 256, e.RXStepSize),
   (1, 256, e.ShiftDirection), (1, 256, e.ReverseEnabled),
   (1, 256, e.ToneEnabled), (1, 256, e.CTCSSEnabled), (1, 256, e.DCSEnabled),
   (2, 65536, e.ToneFrequency), (2, 65536, e.CTCSSFrequency),
   (3, 65536, e.DCSFrequency), (8, 4294967296, e.OffsetFrequency),
   (1, 256, e.Mode), (10, 4294967296, e.TXFrequency), (1, 256, e.TXStepSize),
   (1, 256, e.LockOut)]

/-- A concrete in-range occupied entry (the 2m calling frequency). -/
def e0 : MemoryEntry :=
  ⟨1, 146520000, 0, 0, 0, 0, 0, 0, 0, 0, 0, 600000, 0, 146520000, 0, 0, "CALL"⟩

/-- The concrete numeric response line of the §8 decode scenario. -/
def line6 : String :=
  "ME 001,0146520000,0,0,0,0,0,0,00,00,000,00000000,0,0146520000,0,0\r"

/-- A numeric line carrying only the first 15 fields (the 16th field,
lockOut, absent). -/
def line15 : String :=
  "ME 001,0146520000,0,0,0,0,0,0,00,00,000,00000000,0,0146520000,0"

/-- A concrete entry whose (short) name consists of a single comma. -/
def eComma : MemoryEntry :=
  ⟨5, 146520000, 0, 0, 0, 0, 0, 0, 0, 0, 0, 0, 0, 146520000, 0, 0, ","⟩

/-- A device whose every transaction is acknowledged with the reply
`ME\r` (a non-rejection acknowledgement line). -/
def devOK : Dev := ⟨fun _ => TxOutcome.reply "ME\r", 0, []⟩

/-- A device on which every transaction fails in the underlying write. -/
def devFail : Dev := ⟨fun _ => TxOutcome.writeFail "io error", 0, []⟩

/-- A concrete 3-slot bank with positional numbering: slots 0 and 2
occupied, slot 1 empty. -/
def memW : List MemoryEntry :=
  [⟨0, 145000000, 0, 0, 0, 0, 0, 0, 0, 0, 0, 0, 0, 145000000, 0, 0, "A"⟩,
   ⟨1, 0, 0, 0, 0, 0, 0, 0, 0, 0, 0, 0, 0, 0, 0, 0, ""⟩,
   ⟨2, 430000000, 0, 0, 0, 0, 0, 0, 0, 0, 0, 0, 0, 430000000, 0, 0, "B"⟩]

/-- A 2-slot bank with non-positional numbering: the entry stored at
position 0 carries `Number = 1` and is occupied, while the entry stored
at position 1 is the zero record (empty). -/
def memBad : List MemoryEntry :=
  [⟨1, 146520000, 0, 0, 0, 0, 0, 0, 0, 0, 0, 0, 0, 146520000, 0, 0, ""⟩,
   ⟨0, 0, 0, 0, 0, 0, 0, 0, 0, 0, 0, 0, 0, 0, 0, 0, ""⟩]

/-! ## Lemmas about decimal rendering and scanning -/

theorem digitChar_isDigit (d : Nat) (hd : d < 10) :
    (Nat.digitChar d).isDigit = true := by
  interval_cases d <;> decide

theorem digitChar_toNat (d : Nat) (hd : d < 10) :
    (Nat.digitChar d).toNat = 48 + d := by
  interval_cases d <;> decide

theorem isScanSpace_of_isDigit (c : Char) (h : c.isDigit = true) :
    isScanSpace c = false := by
  have h1 : (c == ' ') = false := by
    cases hb : c == ' ' with
    | false => rfl
    | true =>
      exfalso
      have hc : c = ' ' := beq_iff_eq.1 hb
      subst hc
      exact absurd h (by decide)
  have h2 : (c == '\t') = false := by
    cases hb : c == '\t' with
    | false => rfl
    | true =>
      exfalso
      have hc : c = '\t' := beq_iff_eq.1 hb
      subst hc
      exact absurd h (by decide)
  unfold isScanSpace
  rw [h1, h2]
  rfl

theorem decReprAux_succ (f n : Nat) :
    decReprAux (f + 1) n =
      if n < 10 then [Nat.digitChar n]
      else decReprAux f (n / 10) ++ [Nat.digitChar (n % 10)] := rfl

theorem decReprAux_isDigit (fuel : Nat) : ∀ n, n < fuel →
    ∀ c ∈ decReprAux fuel n, c.isDigit = true := by
  induction fuel with
  | zero => intro n hn; omega
  | succ f ih =>
    intro n hn c hc
    rw [decReprAux_succ] at hc
    by_cases h10 : n < 10
    · rw [if_pos h10] at hc
      simp only [List.mem_singleton] at hc
      subst hc; exact digitChar_isDigit n h10
    · rw [if_neg h10] at hc
      rcases List.mem_append.1 hc with h | h
      · exact ih (n / 10) (by omega) c h
      · simp only [List.mem_singleton] at h
        subst h; exact digitChar_isDigit _ (Nat.mod_lt _ (by omega))

theorem decReprAux_ne_nil (fuel n : Nat) (hn : n < fuel) :
    decReprAux fuel n ≠ [] := by
  cases fuel with
  | zero => omega
  | succ f =>
    rw [decReprAux_succ]
    by_cases h10 : n < 10
    · rw [if_pos h10]; simp
    · rw [if_neg h10]; simp

theorem digitsVal_nil (acc : Nat) : digitsVal acc [] = acc := rfl

theorem digitsVal_cons (acc : Nat) (c : Char) (cs : List Char) :
    digitsVal acc (c :: cs) = digitsVal (10 * acc + (c.toNat - 48)) cs := rfl

theorem digitsVal_append (l1 l2 : List Char) : ∀ acc,
    digitsVal acc (l1 ++ l2) = digitsVal (digitsVal acc l1) l2 := by
  induction l1 with
  | nil => intro acc; rfl
  | cons c t ih => intro acc; exact ih (10 * acc + (c.toNat - 48))

theorem digitsVal_decReprAux (fuel : Nat) : ∀ n acc, n < fuel →
    digitsVal acc (decReprAux fuel n) =
      acc * 10 ^ (decReprAux fuel n).length + n := by
  induction fuel with
  | zero => intro n acc hn; omega
  | succ f ih =>
    intro n acc hn
    rw [decReprAux_succ]
    by_cases h10 : n < 10
    · rw [if_pos h10]
      rw [digitsVal_cons, digitsVal_nil, digitChar_toNat n h10,
        List.length_singleton, pow_one]
      omega
    · rw [if_neg h10]
      rw [digitsVal_append, ih (n / 10) acc (by omega)]
      rw [digitsVal_cons, digitsVal_nil, digitChar_toNat _ (Nat.mod_lt _ (by omega)),
        List.length_append, List.length_singleton, pow_succ, ← mul_assoc]
      set B := acc * 10 ^ (decReprAux f (n / 10)).length with hB
      have hdm := Nat.div_add_mod n 10
      omega

theorem decReprAux_length_le (fuel : Nat) : ∀ n w, n < fuel → 1 ≤ w →
    n < 10 ^ w → (decReprAux fuel n).length ≤ w := by
  induction fuel with
  | zero => intro n w hn; omega
  | succ f ih =>
    intro n w hn hw hnw
    rw [decReprAux_succ]
    by_cases h10 : n < 10
    · rw [if_pos h10]; simpa using hw
    · rw [if_neg h10]
      simp only [List.length_append, List.length_singleton]
      have hw2 : 2 ≤ w := by
        by_contra hc
        have hone : w = 1 := by omega
        subst hone; simp at hnw; omega
      have hpow : (10 : Nat) ^ w = 10 * 10 ^ (w - 1) := by
        rw [← pow_succ']
        congr 1
        omega
      have hdiv : n / 10 < 10 ^ (w - 1) :=
        Nat.div_lt_of_lt_mul (by omega)
      have := ih (n / 10) (w - 1) (by omega) (by omega) hdiv
      omega

theorem decRepr_isDigit (n : Nat) : ∀ c ∈ decRepr n, c.isDigit = true :=
  decReprAux_isDigit (n + 1) n (Nat.lt_succ_self n)

theorem decRepr_ne_nil (n : Nat) : decRepr n ≠ [] :=
  decReprAux_ne_nil (n + 1) n (Nat.lt_succ_self n)

theorem digitsVal_decRepr (n : Nat) : digitsVal 0 (decRepr n) = n := by
  have := digitsVal_decReprAux (n + 1) n 0 (Nat.lt_succ_self n)
  simpa [decRepr] using this

theorem decRepr_length_le (n w : Nat) (hw : 1 ≤ w) (hn : n < 10 ^ w) :
    (decRepr n).length ≤ w :=
  decReprAux_length_le (n + 1) n w (Nat.lt_succ_self n) hw hn

theorem pad0_length (w n : Nat) (h : (decRepr n).length ≤ w) :
    (pad0 w n).length = w := by
  simp only [pad0, List.length_append, List.length_replicate]
  omega

theorem pad0_isDigit (w n : Nat) : ∀ c ∈ pad0 w n, c.isDigit = true := by
  intro c hc
  rcases List.mem_append.1 hc with h | h
  · rw [List.eq_of_mem_replicate h]; decide
  · exact decRepr_isDigit n c h

theorem digitsVal_zeros (k : Nat) : digitsVal 0 (List.replicate k '0') = 0 := by
  induction k with
  | zero => rfl
  | succ j ih =>
    rw [List.replicate_succ, digitsVal_cons]
    have h0 : 10 * 0 + ('0'.toNat - 48) = 0 := by decide
    rw [h0]
    exact ih

theorem digitsVal_pad0 (w n : Nat) : digitsVal 0 (pad0 w n) = n := by
  rw [pad0, digitsVal_append, digitsVal_zeros, digitsVal_decRepr]

theorem takeDigits_exact : ∀ (ds : List Char) (rest : List Char),
    (∀ c ∈ ds, c.isDigit = true) →
    takeDigits ds.length (ds ++ rest) = (ds, rest) := by
  intro ds
  induction ds with
  | nil => intro rest _; rfl
  | cons c t ih =>
    intro rest hd
    have step : takeDigits (c :: t).length ((c :: t) ++ rest) =
        if c.isDigit then
          ((c :: (takeDigits t.length (t ++ rest)).1),
            (takeDigits t.length (t ++ rest)).2)
        else ([], c :: (t ++ rest)) := rfl
    rw [step, if_pos (hd c (List.mem_cons_self c t)),
      ih rest (fun x hx => hd x (List.mem_cons_of_mem c hx))]

theorem dropWhile_scanSpace (sps l : List Char) (hs : ∀ c ∈ sps, isScanSpace c = true)
    (hl : ∀ c ∈ l.head?, isScanSpace c = false) :
    List.dropWhile isScanSpace (sps ++ l) = l := by
  induction sps with
  | nil =>
    cases l with
    | nil => rfl
    | cons c t =>
      simp only [List.nil_append, List.dropWhile_cons]
      rw [hl c rfl]
      simp
  | cons s st ih =>
    simp only [List.cons_append, List.dropWhile_cons]
    rw [hs s (List.mem_cons_self s st)]
    simp only [if_true]
    exact ih (fun c hc => hs c (List.mem_cons_of_mem s hc))

theorem scanNum_pad (sps : List Char) (w b v : Nat) (rest : List Char)
    (hs : ∀ c ∈ sps, isScanSpace c = true) (hw : 1 ≤ w)
    (hvw : v < 10 ^ w) (hvb : v < b) :
    scanNum w b (sps ++ (pad0 w v ++ rest)) = some (v, rest) := by
  have hlen : (pad0 w v).length = w := pad0_length w v (decRepr_length_le v w hw hvw)
  have hdigits := pad0_isDigit w v
  have hne : (pad0 w v).isEmpty = false := by
    cases hp : pad0 w v with
    | nil => exfalso; rw [hp] at hlen; simp at hlen; omega
    | cons x t => rfl
  have hdrop : List.dropWhile isScanSpace (sps ++ (pad0 w v ++ rest)) =
      pad0 w v ++ rest := by
    apply dropWhile_scanSpace sps _ hs
    intro c hc
    cases hp : pad0 w v with
    | nil => exfalso; rw [hp] at hlen; simp at hlen; omega
    | cons x t =>
      rw [hp] at hc
      simp only [List.cons_append, List.head?_cons, Option.mem_def,
        Option.some.injEq] at hc
      subst hc
      apply isScanSpace_of_isDigit
      apply hdigits
      rw [hp]
      exact List.mem_cons_self _ _
  have htake : takeDigits w (pad0 w v ++ rest) = (pad0 w v, rest) := by
    have h := takeDigits_exact (pad0 w v) rest hdigits
    rw [hlen] at h
    exact h
  unfold scanNum
  rw [hdrop, htake]
  simp [hne, digitsVal_pad0, hvb]

theorem scanNum_pad' (w b v : Nat) (rest : List Char) (hw : 1 ≤ w)
    (hvw : v < 10 ^ w) (hvb : v < b) :
    scanNum w b (pad0 w v ++ rest) = some (v, rest) :=
  scanNum_pad [] w b v rest (by intro c hc; cases hc) hw hvw hvb

theorem scanFields_cons_eq (w b : Nat) (ws : List (Nat × Nat)) (sep : Bool)
    (cs : List Char) :
    scanFields ((w, b) :: ws) sep cs =
      match sepStep sep cs with
      | none => (0, none)
      | some cs2 =>
        match scanNum w b cs2 with
        | none => (0, none)
        | some (v, cs3) =>
          ((scanFields ws true cs3).1 + 1,
            (scanFields ws true cs3).2.map fun q => (v :: q.1, q.2)) := rfl

theorem sepStep_false (cs : List Char) : sepStep false cs = some cs := rfl

theorem sepStep_true_comma (t : List Char) :
    sepStep true (',' :: t) = some t := rfl

theorem formatFields_false_cons (w v : Nat) (ws : List (Nat × Nat)) :
    formatFields false ((w, v) :: ws) = pad0 w v ++ formatFields true ws := rfl

theorem formatFields_true_cons (w v : Nat) (ws : List (Nat × Nat)) :
    formatFields true ((w, v) :: ws) =
      ',' :: (pad0 w v ++ formatFields true ws) := rfl

theorem scanFields_count (ws : List (Nat × Nat)) : ∀ (sep : Bool) (cs : List Char),
    ((scanFields ws sep cs).2.isSome ↔ (scanFields ws sep cs).1 = ws.length)
    ∧ (scanFields ws sep cs).1 ≤ ws.length := by
  induction ws with
  | nil =>
    intro sep cs
    exact ⟨by simp [scanFields], by simp [scanFields]⟩
  | cons wb ws ih =>
    intro sep cs
    obtain ⟨w, b⟩ := wb
    rw [scanFields_cons_eq]
    cases hsep : sepStep sep cs with
    | none => simp
    | some cs2 =>
      dsimp only
      cases hnum : scanNum w b cs2 with
      | none => simp
      | some vc =>
        obtain ⟨v, cs3⟩ := vc
        dsimp only
        have h := ih true cs3
        constructor
        · rw [Option.isSome_map', h.1]
          simp only [List.length_cons]
          omega
        · simp only [List.length_cons]
          have h2 := h.2
          omega

/-- Scanning back a formatted run of in-range fields succeeds, consumes
exactly the formatted text, and returns the original values (the generic
encode/decode inverse law behind the numeric round-trip). -/
theorem scanFields_format (ts : List (Nat × Nat × Nat)) :
    ∀ rest : List Char,
    (∀ t ∈ ts, 1 ≤ t.1 ∧ t.2.2 < 10 ^ t.1 ∧ t.2.2 < t.2.1) →
    scanFields (ts.map fun t => (t.1, t.2.1)) true
        (formatFields true (ts.map fun t => (t.1, t.2.2)) ++ rest) =
      (ts.length, some (ts.map fun t => t.2.2, rest)) := by
  induction ts with
  | nil => intro rest _; rfl
  | cons t ts ih =>
    intro rest h
    obtain ⟨w, b, v⟩ := t
    have ht := h (w, b, v) (List.mem_cons_self _ _)
    simp only [List.map_cons]
    rw [formatFields_true_cons, List.cons_append, scanFields_cons_eq,
      sepStep_true_comma, List.append_assoc]
    dsimp only
    rw [scanNum_pad' w b v _ ht.1 ht.2.1 ht.2.2]
    dsimp only
    rw [ih rest (fun x hx => h x (List.mem_cons_of_mem _ hx))]
    simp

/-! ## Lemmas about the ME-line codec -/

theorem scanME_cons (rest : List Char) :
    scanME ('M' :: 'E' :: rest) =
      ((scanFields MESpec false rest).1,
        (scanFields MESpec false rest).2.map Prod.fst) := rfl

theorem scanME_count (cs : List Char) :
    ((scanME cs).2.isSome ↔ (scanME cs).1 = 16) ∧ (scanME cs).1 ≤ 16 := by
  unfold scanME
  split
  · rename_i rest
    dsimp only
    have h := scanFields_count MESpec false rest
    constructor
    · rw [Option.isSome_map']
      exact h.1
    · exact h.2
  · exact ⟨by simp, by omega⟩

/-- Scanning back an encoded in-range entry succeeds with all 16 operands
and returns the 16 field values in struct order. -/
theorem scanME_WriteChannelLine (e : MemoryEntry) (hr : InRange e) :
    scanME (WriteChannelLine e).data =
      (16, some [e.Number, e.RXFrequency, e.RXStepSize, e.ShiftDirection,
        e.ReverseEnabled, e.ToneEnabled, e.CTCSSEnabled, e.DCSEnabled,
        e.ToneFrequency, e.CTCSSFrequency, e.DCSFrequency, e.OffsetFrequency,
        e.Mode, e.TXFrequency, e.TXStepSize, e.LockOut]) := by
  obtain ⟨h1, h2, h3, h4, h5, h6, h7, h8, h9, h10, h11, h12, h13, h14, h15, h16⟩ := hr
  have hcond : ∀ t ∈ meTriplesTail e, 1 ≤ t.1 ∧ t.2.2 < 10 ^ t.1 ∧ t.2.2 < t.2.1 := by
    intro t ht
    simp only [meTriplesTail, List.mem_cons, List.not_mem_nil, or_false] at ht
    rcases ht with rfl | rfl | rfl | rfl | rfl | rfl | rfl | rfl | rfl | rfl |
      rfl | rfl | rfl | rfl | rfl <;>
      refine ⟨by norm_num, by dsimp only; norm_num; omega,
        by dsimp only; omega⟩
  show scanME ('M' :: 'E' :: ' ' :: formatFields false (fieldWidthVals e)) = _
  rw [scanME_cons]
  have hfw : fieldWidthVals e =
      (3, e.Number) :: (meTriplesTail e).map (fun t => (t.1, t.2.2)) := rfl
  have hspec : MESpec =
      (3, 65536) :: (meTriplesTail e).map (fun t => (t.1, t.2.1)) := rfl
  rw [hfw, hspec, formatFields_false_cons, scanFields_cons_eq, sepStep_false]
  dsimp only
  have hn1 : scanNum 3 65536 (' ' :: (pad0 3 e.Number ++
      formatFields true ((meTriplesTail e).map fun t => (t.1, t.2.2)))) =
      some (e.Number,
        formatFields true ((meTriplesTail e).map fun t => (t.1, t.2.2))) := by
    have hsp : ∀ c ∈ [' '], isScanSpace c = true := by
      intro c hc
      simp only [List.mem_singleton] at hc
      subst hc
      rfl
    have hb : e.Number < 10 ^ 3 := by norm_num; omega
    exact scanNum_pad [' '] 3 65536 e.Number _ hsp (by norm_num) hb (by omega)
  rw [hn1]
  dsimp only
  have htail := scanFields_format (meTriplesTail e) [] hcond
  rw [List.append_nil] at htail
  rw [htail]
  rfl

/-! ## Claim C1: numeric round-trip -/

/-- C1: for every in-range Memory Channel Entry with `rxFrequency ≠ 0`,
decoding the numeric line produced by encoding that entry
(`ReadChannelLine` applied to the output of `WriteChannelLine`, into a
fresh zero record as `ReadChannel` does) reproduces all 16 numeric fields
of the entry exactly; only the name, which the numeric line does not
carry, stays that of the target record. -/
theorem C1_numeric_roundtrip (e : MemoryEntry) (hr : InRange e)
    (_hrx : e.RXFrequency ≠ 0) :
    ReadChannelLine emptyEntry (WriteChannelLine e) =
      Except.ok { e with Name := "" } := by
  have hs := scanME_WriteChannelLine e hr
  have hne : WriteChannelLine e ≠ "N\r" := by
    intro h
    have h2 : ('M' :: 'E' :: ' ' :: formatFields false (fieldWidthVals e)) =
        ['N', '\r'] := congrArg String.data h
    simp at h2
  unfold ReadChannelLine
  rw [if_neg hne]
  dsimp only
  rw [hs]
  rfl

/-- Witness for C1: the round-trip evaluated at a concrete in-range
occupied entry. -/
theorem C1_numeric_roundtrip_witness :
    InRange e0 ∧ e0.RXFrequency ≠ 0 ∧
      ReadChannelLine emptyEntry (WriteChannelLine e0) =
        Except.ok { e0 with Name := "" } :=
  ⟨by decide, by decide, C1_numeric_roundtrip e0 (by decide) (by decide)⟩

/-! ## Claim C6: concrete decode scenario -/

/-- C6: the input line
`ME 001,0146520000,0,0,0,0,0,0,00,00,000,00000000,0,0146520000,0,0\r`
decodes successfully into the record with number 1, rx and tx frequency
146520000, and every other numeric field 0, fields assigned positionally
in struct order. -/
theorem C6_scenario_decode :
    ReadChannelLine emptyEntry line6 =
      Except.ok ⟨1, 146520000, 0, 0, 0, 0, 0, 0, 0, 0, 0, 0, 0,
        146520000, 0, 0, ""⟩ := by
  rfl

/-! ## Claim C5: malformed detection and the lockOut leniency -/

/-- C5 counterexample: on the line carrying only the first 15 fields
(lockOut absent), exactly 15 operands parse successfully, yet decoding
fails as malformed — refuting both halves of the claim (the claim says a
15-field line decodes successfully and that failure happens exactly below
15 parsed fields).  The scanner reports an error whenever any of the 16
format verbs goes unmatched, so the `items < 15` leniency in
`ReadChannelLine` is unreachable. -/
theorem C5_counterexample :
    (scanME line15.data).1 = 15 ∧
      ReadChannelLine emptyEntry line15 =
        Except.error (RErr.malformed line15) :=
  ⟨rfl, rfl⟩

/-- C5 amended: numeric-line decode of a non-empty-marker line fails with
a Malformed error exactly when fewer than 16 fields parse successfully; in
particular a line whose 16th field (lockOut) is absent fails rather than
defaulting it, because the scan itself errors before the lenient
`items < 15` check can matter. -/
theorem C5_malformed_iff (m : MemoryEntry) (line : String)
    (hline : line ≠ "N\r") :
    (∃ err, ReadChannelLine m line = Except.error err) ↔
      (scanME line.data).1 < 16 := by
  have hc := scanME_count line.data
  unfold ReadChannelLine
  rw [if_neg hline]
  dsimp only
  cases hp : (scanME line.data).2 with
  | none =>
    constructor
    · intro _
      have h1 := hc.1
      rw [hp] at h1
      simp at h1
      have h2 := hc.2
      omega
    · intro _
      exact ⟨RErr.malformed line, rfl⟩
  | some vs =>
    have h16 : (scanME line.data).1 = 16 := by
      apply hc.1.1
      rw [hp]
      rfl
    rw [h16]
    simp

/-- Witness for C5 amended: the biconditional applied at the concrete
15-field line. -/
theorem C5_malformed_iff_witness :
    (∃ err, ReadChannelLine emptyEntry line15 = Except.error err) ↔
      (scanME line15.data).1 < 16 :=
  C5_malformed_iff emptyEntry line15 (by decide)

/-! ## Lemmas about the name-line codec -/

theorem splitComma_cons (c : Char) (t : List Char) :
    splitComma (c :: t) =
      if c = ',' then [] :: splitComma t
      else
        match splitComma t with
        | [] => [[c]]
        | h :: r => (c :: h) :: r := rfl

theorem splitComma_no_comma : ∀ cs : List Char, ',' ∉ cs →
    splitComma cs = [cs] := by
  intro cs
  induction cs with
  | nil => intro _; rfl
  | cons c t ih =>
    intro h
    have hc : c ≠ ',' := fun he => h (he ▸ List.mem_cons_self c t)
    rw [splitComma_cons, if_neg hc, ih (fun hm => h (List.mem_cons_of_mem c hm))]

theorem splitComma_append (l1 l2 : List Char) (h : ',' ∉ l1) :
    splitComma (l1 ++ ',' :: l2) = l1 :: splitComma l2 := by
  induction l1 with
  | nil =>
    rw [List.nil_append, splitComma_cons, if_pos rfl]
  | cons c t ih =>
    have hc : c ≠ ',' := fun he => h (he ▸ List.mem_cons_self c t)
    rw [List.cons_append, splitComma_cons, if_neg hc,
      ih (fun hm => h (List.mem_cons_of_mem c hm))]

theorem comma_not_digit (c : Char) (h : c.isDigit = true) : c ≠ ',' := by
  intro he
  subst he
  exact absurd h (by decide)

/-- Round-trip of the name line: when the (truncated) name contains no
comma and does not end in a carriage return, decoding the encoded name
line recovers exactly the truncated name. -/
theorem ReadNameLine_WriteNameLine (m e : MemoryEntry)
    (hcomma : ',' ∉ (truncName e.Name).data)
    (hcr : (truncName e.Name).data.getLast? ≠ some '\r') :
    ReadNameLine m (WriteNameLine e) =
      Except.ok { m with Name := truncName e.Name } := by
  have hne : WriteNameLine e ≠ "N\r" := by
    intro h
    have h2 : ('M' :: 'N' :: ' ' ::
        (pad0 3 e.Number ++ ',' :: (truncName e.Name).data)) = ['N', '\r'] :=
      congrArg String.data h
    simp at h2
  have hpre : ',' ∉ ('M' :: 'N' :: ' ' :: pad0 3 e.Number) := by
    intro hm
    simp only [List.mem_cons] at hm
    rcases hm with h | h | h | h
    · exact absurd h (by decide)
    · exact absurd h (by decide)
    · exact absurd h (by decide)
    · exact comma_not_digit ',' (pad0_isDigit 3 e.Number ',' h) rfl
  have hdata : (WriteNameLine e).data =
      ('M' :: 'N' :: ' ' :: pad0 3 e.Number) ++ ',' :: (truncName e.Name).data := by
    show ('M' :: 'N' :: ' ' :: (pad0 3 e.Number ++ ',' :: (truncName e.Name).data)) = _
    simp
  have hlast : ¬((WriteNameLine e).data.getLast? = some '\r') := by
    rw [hdata, List.getLast?_append_cons]
    cases ht : (truncName e.Name).data with
    | nil => decide
    | cons x t' =>
      rw [ht] at hcr
      rw [List.getLast?_cons_cons]
      exact hcr
  have htrim : trimCR (WriteNameLine e).data = (WriteNameLine e).data := by
    unfold trimCR
    rw [if_neg hlast]
  unfold ReadNameLine
  rw [if_neg hne]
  dsimp only
  rw [htrim, hdata, splitComma_append _ _ hpre,
    splitComma_no_comma _ hcomma]
  rw [List.headD_cons]
  rw [if_pos (show List.isPrefixOf ['M', 'N']
    ('M' :: 'N' :: ' ' :: pad0 3 e.Number) = true from rfl)]
  cases ht : (truncName e.Name).data with
  | nil =>
    dsimp only
    rw [if_pos rfl]
    have hname : truncName e.Name = "" := by
      have heta : truncName e.Name = String.mk (truncName e.Name).data := rfl
      rw [heta, ht]
    rw [hname]
  | cons x t' =>
    dsimp only
    rw [if_neg (by simp)]
    have hname : String.mk (x :: t') = truncName e.Name := by
      rw [← ht]
    rw [hname]

/-! ## Claim C7: name round-trip -/

/-- C7 counterexample: the single-character name `,` has length at most 8,
yet decoding its encoded name line yields the empty name, not the
original — `strings.Split` cuts the name at its comma, so the claimed
round-trip fails for names containing a comma. -/
theorem C7_counterexample :
    eComma.Name.data.length ≤ 8 ∧
      ReadNameLine emptyEntry (WriteNameLine eComma) =
        Except.ok { emptyEntry with Name := "" } ∧
      eComma.Name ≠ "" :=
  ⟨by decide, rfl, by decide⟩

/-- C7 amended: for every entry whose truncated name (the first
min(8, length) characters) contains no comma and does not end in a
carriage return, decoding the encoded name line yields exactly that
truncated name: equal to the original name when its length is at most 8,
and to the first 8 characters when longer.  (Names violating these two
conditions are corrupted by the comma-split or the `\r`-strip of the
decoder, as the counterexample shows.) -/
theorem C7_name_roundtrip (m e : MemoryEntry)
    (hcomma : ',' ∉ (truncName e.Name).data)
    (hcr : (truncName e.Name).data.getLast? ≠ some '\r') :
    ReadNameLine m (WriteNameLine e) =
      Except.ok { m with Name := truncName e.Name } ∧
    (e.Name.data.length ≤ 8 → truncName e.Name = e.Name) ∧
    (8 < e.Name.data.length →
      truncName e.Name = String.mk (e.Name.data.take 8)) := by
  refine ⟨ReadNameLine_WriteNameLine m e hcomma hcr, ?_, ?_⟩
  · intro hle
    unfold truncName
    rw [if_neg (by omega)]
  · intro hgt
    unfold truncName
    rw [if_pos (by omega)]

/-- Witness for C7 amended: the round-trip at a concrete 4-character
name. -/
theorem C7_name_roundtrip_witness :
    (ReadNameLine emptyEntry (WriteNameLine e0) =
      Except.ok { emptyEntry with Name := truncName e0.Name } ∧
    (e0.Name.data.length ≤ 8 → truncName e0.Name = e0.Name) ∧
    (8 < e0.Name.data.length →
      truncName e0.Name = String.mk (e0.Name.data.take 8))) ∧
    e0.Name.data.length ≤ 8 :=
  ⟨C7_name_roundtrip emptyEntry e0 (by decide) (by decide), by decide⟩

/-! ## Claim C2: rejection detection -/

/-- C2: for every command, if the response line read by the transaction
operation has `?` as its first character, `WriteReadString` fails with a
Rejected error carrying the original command text — it never returns
success. -/
theorem C2_rejection (command line : String)
    (h : line.data.head? = some '?') :
    WriteReadString command (TxOutcome.reply line) =
      Except.error (RErr.rejected command) := by
  have hp : List.isPrefixOf ['?'] line.data = true := by
    cases hd : line.data with
    | nil => rw [hd] at h; exact absurd h (by simp)
    | cons c t =>
      rw [hd] at h
      simp only [List.head?_cons, Option.some.injEq] at h
      subst h
      simp [List.isPrefixOf]
  unfold WriteReadString
  dsimp only
  rw [if_pos hp]

/-- Witness for C2: the reply `?invalid\r` rejects a concrete command. -/
theorem C2_rejection_witness :
    ("?invalid\r" : String).data.head? = some '?' ∧
      WriteReadString "AB 005\r" (TxOutcome.reply "?invalid\r") =
        Except.error (RErr.rejected "AB 005\r") :=
  ⟨rfl, C2_rejection "AB 005\r" "?invalid\r" rfl⟩

/-! ## Claim C10: atomicity of ReadChannel -/

theorem ReadChannel_cases (channel : Nat) (d : Dev) :
    (ReadChannel channel d).1.1 = emptyEntry ∨
      (ReadChannel channel d).1.2 = none := by
  unfold ReadChannel
  dsimp only [transact]
  cases WriteReadString (MECommand channel) (d.outcomes d.idx) with
  | error e => left; rfl
  | ok chline =>
    dsimp only
    cases WriteReadString (MNCommand channel) (d.outcomes (d.idx + 1)) with
    | error e => left; rfl
    | ok nameline =>
      dsimp only
      cases ReadChannelLine emptyEntry chline with
      | error e => left; rfl
      | ok m1 =>
        dsimp only
        cases ReadNameLine m1 nameline with
        | error e => left; rfl
        | ok m2 => right; rfl

/-- C10: `ReadChannel` is atomic in its result — whenever any of its four
steps fails (either transaction, or either decode), the returned record is
the all-zero entry, never a partially populated one. -/
theorem C10_read_atomic (channel : Nat) (d : Dev)
    (h : ((ReadChannel channel d).1.2).isSome = true) :
    (ReadChannel channel d).1.1 = emptyEntry := by
  rcases ReadChannel_cases channel d with hc | hc
  · exact hc
  · rw [hc] at h
    simp at h

/-- Witness for C10: a failing transport yields the error together with
the zero record. -/
theorem C10_read_atomic_witness :
    ((ReadChannel 0 devFail).1.2).isSome = true ∧
      (ReadChannel 0 devFail).1.1 = emptyEntry :=
  ⟨rfl, C10_read_atomic 0 devFail rfl⟩

/-! ## Claim C4: occupied channels -/

theorem OccupedChannels_eq_filter (mem : List MemoryEntry) :
    OccupedChannels mem = mem.filter (fun m => m.RXFrequency != 0) := by
  suffices h : ∀ (l acc : List MemoryEntry),
      l.foldl (fun v m => if m.RXFrequency ≠ 0 then v ++ [m] else v) acc =
        acc ++ l.filter (fun m => m.RXFrequency != 0) by
    simpa [OccupedChannels] using h mem []
  intro l
  induction l with
  | nil => intro acc; simp
  | cons m t ih =>
    intro acc
    rw [List.foldl_cons, List.filter_cons]
    by_cases hm : m.RXFrequency ≠ 0
    · rw [if_pos hm, ih]
      simp [hm]
    · rw [if_neg hm, ih]
      push_neg at hm
      simp [hm]

/-- C4: `OccupedChannels` returns, in ascending channel-number order,
exactly the sub-sequence of the bank's entries with nonzero
`RXFrequency`: it equals the filter of the bank, is a sublist of the bank,
contains an entry of the bank iff its `RXFrequency` is nonzero (whatever
its other fields), and — under the positional numbering of a bank read
from the device — its entries' numbers are strictly increasing. -/
theorem C4_occupied_channels (mem : List MemoryEntry)
    (hpos : ∀ i, i < mem.length → (mem.getD i emptyEntry).Number = i) :
    OccupedChannels mem = mem.filter (fun m => m.RXFrequency != 0) ∧
    List.Sublist (OccupedChannels mem) mem ∧
    (∀ m ∈ mem, (m ∈ OccupedChannels mem ↔ m.RXFrequency ≠ 0)) ∧
    (OccupedChannels mem).Pairwise (fun a b => a.Number < b.Number) := by
  have hf := OccupedChannels_eq_filter mem
  have hs : List.Sublist (OccupedChannels mem) mem := by
    rw [hf]
    exact List.filter_sublist mem
  refine ⟨hf, hs, ?_, ?_⟩
  · intro m hm
    rw [hf, List.mem_filter]
    simp [hm]
  · have hpw : mem.Pairwise (fun a b : MemoryEntry => a.Number < b.Number) := by
      rw [List.pairwise_iff_getElem]
      intro i j hi hj hij
      have hi' := hpos i hi
      have hj' := hpos j hj
      rw [List.getD_eq_getElem?_getD, List.getElem?_eq_getElem hi] at hi'
      rw [List.getD_eq_getElem?_getD, List.getElem?_eq_getElem hj] at hj'
      simp only [Option.getD_some] at hi' hj'
      omega
    exact List.Pairwise.sublist hs hpw

/-- Witness for C4 at a concrete positionally numbered 3-slot bank. -/
theorem C4_occupied_channels_witness :
    OccupedChannels memW = memW.filter (fun m => m.RXFrequency != 0) ∧
    List.Sublist (OccupedChannels memW) memW ∧
    (∀ m ∈ memW, (m ∈ OccupedChannels memW ↔ m.RXFrequency ≠ 0)) ∧
    (OccupedChannels memW).Pairwise (fun a b => a.Number < b.Number) :=
  C4_occupied_channels memW (by decide)

/-! ## Claim C8: channel selection in WriteChannel -/

/-- C8 counterexample: in a bank whose numbering is not positional, the
entry stored at position 1 is empty (`RXFrequency = 0`), yet
`WriteChannel 1` succeeds instead of failing with a Precondition error:
the code selects the first entry whose `Number` field matches, not the
entry stored at position `n`. -/
theorem C8_counterexample :
    (memBad.getD 1 emptyEntry).RXFrequency = 0 ∧
      (WriteChannel memBad 1 devOK).1 = Except.ok () :=
  ⟨rfl, rfl⟩

theorem WriteReadString_ne_precondition (cmd : String) (t : TxOutcome)
    (k : Nat) :
    WriteReadString cmd t ≠ Except.error (RErr.precondition k) := by
  unfold WriteReadString
  cases t with
  | writeFail msg => simp
  | readFail msg => simp
  | reply line =>
    dsimp only
    split
    · simp
    · simp

/-- C8 amended: `WriteChannel` selects the first record of the bank whose
`Number` field equals the channel number (modulo 2^16, the Go `uint16`
conversion), falling back to the zero record when none matches, and it
fails with a Precondition error exactly when that selected record's
`rxFrequency` is 0. -/
theorem C8_selection (mem : List MemoryEntry) (channel : Nat) (d : Dev) :
    (WriteChannel mem channel d).1 =
        Except.error (RErr.precondition channel) ↔
      (findChannel mem channel).RXFrequency = 0 := by
  constructor
  · intro h
    by_contra hrx
    unfold WriteChannel at h
    rw [if_neg hrx] at h
    dsimp only [transact] at h
    revert h
    cases hw1 : WriteReadString (clearCommand channel)
        (d.outcomes d.idx) with
    | error e =>
      intro h
      dsimp only at h
      have he : e = RErr.precondition channel := by injection h
      rw [he] at hw1
      exact WriteReadString_ne_precondition _ _ _ hw1
    | ok l1 =>
      cases hw2 : WriteReadString
          (WriteChannelLine (findChannel mem channel) ++ "\r")
          (d.outcomes (d.idx + 1)) with
      | error e =>
        intro h
        dsimp only at h
        have he : e = RErr.precondition channel := by injection h
        rw [he] at hw2
        exact WriteReadString_ne_precondition _ _ _ hw2
      | ok l2 =>
        cases hw3 : WriteReadString
            (WriteNameLine (findChannel mem channel) ++ "\r")
            (d.outcomes (d.idx + 1 + 1)) with
        | error e =>
          intro h
          dsimp only at h
          have he : e = RErr.precondition channel := by injection h
          rw [he] at hw3
          exact WriteReadString_ne_precondition _ _ _ hw3
        | ok l3 =>
          intro h
          dsimp only at h
          simp at h
  · intro h
    unfold WriteChannel
    dsimp only
    rw [if_pos h]

/-! ## Claim C3: write sequencing -/

theorem findChannel_cons (m : MemoryEntry) (rest : List MemoryEntry)
    (c : Nat) :
    findChannel (m :: rest) c =
      if m.Number = c % 65536 then m else findChannel rest c := rfl

/-- On a bank whose `Number` fields run `b, b+1, ...` positionally, the
`Number`-match loop of `WriteChannel` finds exactly the slot at position
`c - b`. -/
theorem findChannel_positional : ∀ (mem : List MemoryEntry) (c b : Nat),
    (∀ i, i < mem.length → (mem.getD i emptyEntry).Number = b + i) →
    b ≤ c → c < 65536 → c - b < mem.length →
    findChannel mem c = mem.getD (c - b) emptyEntry := by
  intro mem
  induction mem with
  | nil => intro c b _ _ _ hn; simp at hn
  | cons m rest ih =>
    intro c b hpos hbc hc hn
    have hm : m.Number = b := by
      have h0 := hpos 0 (by simp)
      simpa using h0
    have hmod : c % 65536 = c := Nat.mod_eq_of_lt hc
    rw [findChannel_cons]
    by_cases hbceq : b = c
    · subst hbceq
      rw [if_pos (by rw [hmod, hm])]
      simp [Nat.sub_self]
    · have hbc2 : b < c := by omega
      rw [if_neg (by rw [hmod, hm]; omega)]
      have hpos2 : ∀ i, i < rest.length →
          (rest.getD i emptyEntry).Number = (b + 1) + i := by
        intro i hi
        have h2 := hpos (i + 1) (by simp; omega)
        rw [List.getD_cons_succ] at h2
        omega
      have hn2 : c - (b + 1) < rest.length := by
        simp at hn
        omega
      have := ih c (b + 1) hpos2 (by omega) hc hn2
      have hcb : c - b = (c - (b + 1)) + 1 := by omega
      rw [hcb, List.getD_cons_succ]
      exact this

theorem WriteReadString_reply (cmd line : String) :
    WriteReadString cmd (TxOutcome.reply line) =
      if List.isPrefixOf ['?'] line.data then
        Except.error (RErr.rejected cmd)
      else Except.ok line := rfl

/-- C3: on a positionally numbered bank, `WriteChannel n` for a channel
whose record is occupied (`rxFrequency ≠ 0`) and acknowledged by the
device issues exactly 3 transactions in order — the clear-channel command,
the encoded numeric line, the encoded name line — and succeeds; for a
channel whose record is empty (`rxFrequency = 0`) it issues zero
transactions and fails with a Precondition error. -/
theorem C3_write_sequencing (mem : List MemoryEntry) (channel : Nat)
    (d : Dev)
    (hpos : ∀ i, i < mem.length → (mem.getD i emptyEntry).Number = i)
    (hch : channel < mem.length) (hch2 : channel < 65536) :
    ((mem.getD channel emptyEntry).RXFrequency = 0 →
      WriteChannel mem channel d =
        (Except.error (RErr.precondition channel), d)) ∧
    (∀ l1 l2 l3 : String,
      d.outcomes d.idx = TxOutcome.reply l1 →
      d.outcomes (d.idx + 1) = TxOutcome.reply l2 →
      d.outcomes (d.idx + 2) = TxOutcome.reply l3 →
      List.isPrefixOf ['?'] l1.data = false →
      List.isPrefixOf ['?'] l2.data = false →
      List.isPrefixOf ['?'] l3.data = false →
      (mem.getD channel emptyEntry).RXFrequency ≠ 0 →
      (WriteChannel mem channel d).1 = Except.ok () ∧
      (WriteChannel mem channel d).2.sent = d.sent ++
        [clearCommand channel,
         WriteChannelLine (mem.getD channel emptyEntry) ++ "\r",
         WriteNameLine (mem.getD channel emptyEntry) ++ "\r"]) := by
  have hfind : findChannel mem channel = mem.getD channel emptyEntry := by
    have h := findChannel_positional mem channel 0
      (by intro i hi; rw [Nat.zero_add]; exact hpos i hi)
      (Nat.zero_le channel) hch2 (by omega)
    rwa [Nat.sub_zero] at h
  constructor
  · intro hrx
    unfold WriteChannel
    dsimp only
    rw [hfind, if_pos hrx]
  · intro l1 l2 l3 h1 h2 h3 hp1 hp2 hp3 hrx
    unfold WriteChannel
    dsimp only
    rw [hfind, if_neg hrx]
    dsimp only [transact]
    rw [h1, WriteReadString_reply, hp1, if_neg Bool.false_ne_true]
    dsimp only
    rw [h2, WriteReadString_reply, hp2, if_neg Bool.false_ne_true]
    dsimp only
    rw [h3, WriteReadString_reply, hp3, if_neg Bool.false_ne_true]
    dsimp only
    refine ⟨rfl, ?_⟩
    simp

/-- Witness for C3 at a concrete 3-slot bank and an acknowledging device:
channel 0 (occupied) issues the three commands in order, channel 1
(empty) fails with Precondition without any transaction. -/
theorem C3_write_sequencing_witness :
    (WriteChannel memW 1 devOK =
      (Except.error (RErr.precondition 1), devOK)) ∧
    (WriteChannel memW 0 devOK).1 = Except.ok () ∧
    (WriteChannel memW 0 devOK).2.sent = [] ++
      [clearCommand 0,
       WriteChannelLine (memW.getD 0 emptyEntry) ++ "\r",
       WriteNameLine (memW.getD 0 emptyEntry) ++ "\r"] := by
  refine ⟨(C3_write_sequencing memW 1 devOK (by decide) (by decide)
    (by decide)).1 (by decide), ?_, ?_⟩
  · exact ((C3_write_sequencing memW 0 devOK (by decide) (by decide)
      (by decide)).2 "ME\r" "ME\r" "ME\r" rfl rfl rfl rfl rfl rfl
      (by decide)).1
  · exact ((C3_write_sequencing memW 0 devOK (by decide) (by decide)
      (by decide)).2 "ME\r" "ME\r" "ME\r" rfl rfl rfl rfl rfl rfl
      (by decide)).2

/-! ## Claim C9: slot contents after readMemory -/

/-- A successful `ReadChannel` consumed exactly two reply transactions,
neither rejected, and its record is the two-stage pure decode of those two
reply lines starting from the zero record. -/
theorem ReadChannel_ok (channel : Nat) (o : Nat → TxOutcome) (k : Nat)
    (s : List String) (m : MemoryEntry) (d1 : Dev)
    (h : ReadChannel channel ⟨o, k, s⟩ = ((m, none), d1)) :
    ∃ chline nameline m1,
      o k = TxOutcome.reply chline ∧
      o (k + 1) = TxOutcome.reply nameline ∧
      List.isPrefixOf ['?'] chline.data = false ∧
      List.isPrefixOf ['?'] nameline.data = false ∧
      ReadChannelLine emptyEntry chline = Except.ok m1 ∧
      ReadNameLine m1 nameline = Except.ok m ∧
      d1 = ⟨o, k + 2, (s ++ [MECommand channel]) ++ [MNCommand channel]⟩ := by
  unfold ReadChannel at h
  dsimp only [transact] at h
  revert h
  cases ho1 : o k with
  | writeFail msg => intro h; unfold WriteReadString at h; simp at h
  | readFail msg => intro h; unfold WriteReadString at h; simp at h
  | reply chline =>
    rw [WriteReadString_reply]
    by_cases hq1 : List.isPrefixOf ['?'] chline.data = true
    · rw [if_pos hq1]; intro h; simp at h
    · have hq1f : List.isPrefixOf ['?'] chline.data = false := by
        simp only [Bool.not_eq_true] at hq1
        exact hq1
      rw [if_neg hq1]
      dsimp only
      cases ho2 : o (k + 1) with
      | writeFail msg => intro h; unfold WriteReadString at h; simp at h
      | readFail msg => intro h; unfold WriteReadString at h; simp at h
      | reply nameline =>
        rw [WriteReadString_reply]
        by_cases hq2 : List.isPrefixOf ['?'] nameline.data = true
        · rw [if_pos hq2]; intro h; simp at h
        · have hq2f : List.isPrefixOf ['?'] nameline.data = false := by
            simp only [Bool.not_eq_true] at hq2
            exact hq2
          rw [if_neg hq2]
          dsimp only
          cases hd1 : ReadChannelLine emptyEntry chline with
          | error e => intro h; simp at h
          | ok m1 =>
            dsimp only
            cases hd2 : ReadNameLine m1 nameline with
            | error e => intro h; simp at h
            | ok m2 =>
              dsimp only
              intro h
              simp only [Prod.mk.injEq] at h
              obtain ⟨⟨hm, -⟩, hdev⟩ := h
              subst hm
              exact ⟨chline, nameline, m1, rfl, rfl, hq1f, hq2f, hd1, hd2,
                hdev.symm⟩

/-- A successful `ReadMemoryFrom` run determines every collected slot:
slot `j` is the pure decode of the two reply lines of transactions
`2j` and `2j + 1` past the starting index. -/
theorem ReadMemoryFrom_ok : ∀ (fuel i : Nat) (o : Nat → TxOutcome)
    (k : Nat) (s : List String) (mem : List MemoryEntry) (d1 : Dev),
    ReadMemoryFrom i fuel ⟨o, k, s⟩ = (Except.ok mem, d1) →
    mem.length = fuel ∧
    ∀ j, j < fuel → ∃ chline nameline m1,
      o (k + 2 * j) = TxOutcome.reply chline ∧
      o (k + 2 * j + 1) = TxOutcome.reply nameline ∧
      List.isPrefixOf ['?'] chline.data = false ∧
      List.isPrefixOf ['?'] nameline.data = false ∧
      ReadChannelLine emptyEntry chline = Except.ok m1 ∧
      ReadNameLine m1 nameline = Except.ok (mem.getD j emptyEntry) := by
  intro fuel
  induction fuel with
  | zero =>
    intro i o k s mem d1 h
    unfold ReadMemoryFrom at h
    simp only [Prod.mk.injEq, Except.ok.injEq] at h
    obtain ⟨hm, -⟩ := h
    subst hm
    exact ⟨rfl, by intro j hj; omega⟩
  | succ f ih =>
    intro i o k s mem d1 h
    unfold ReadMemoryFrom at h
    dsimp only at h
    rcases hrc : ReadChannel i ⟨o, k, s⟩ with ⟨⟨m, eo⟩, drc⟩
    rw [hrc] at h
    dsimp only at h
    cases eo with
    | some e => simp at h
    | none =>
      rcases hrm : ReadMemoryFrom (i + 1) f drc with ⟨res, d2⟩
      rw [hrm] at h
      cases res with
      | error e => simp at h
      | ok ms =>
        dsimp only at h
        simp only [Prod.mk.injEq, Except.ok.injEq] at h
        obtain ⟨hmem, -⟩ := h
        subst hmem
        obtain ⟨chl, nml, m1, ho1, ho2, hq1, hq2, hdec1, hdec2, hdev⟩ :=
          ReadChannel_ok i o k s m drc hrc
        subst hdev
        have ihh := ih (i + 1) o (k + 2) _ ms d2 hrm
        constructor
        · simp [ihh.1]
        · intro j hj
          cases j with
          | zero =>
            refine ⟨chl, nml, m1, ?_, ?_, hq1, hq2, hdec1, ?_⟩
            · simpa using ho1
            · simpa using ho2
            · simpa using hdec2
          | succ j2 =>
            obtain ⟨c2, n2, mm1, a1, a2, a3, a4, a5, a6⟩ :=
              ihh.2 j2 (by omega)
            refine ⟨c2, n2, mm1, ?_, ?_, a3, a4, a5, ?_⟩
            · rw [show k + 2 * (j2 + 1) = k + 2 + 2 * j2 by omega]
              exact a1
            · rw [show k + 2 * (j2 + 1) + 1 = k + 2 + 2 * j2 + 1 by omega]
              exact a2
            · simpa using a6

/-- One channel read against the all-empty device: both transactions
reply `N\r`, so the result is the zero record. -/
theorem ReadChannel_constN (channel k : Nat) (s : List String) :
    ReadChannel channel ⟨fun _ => TxOutcome.reply "N\r", k, s⟩ =
      ((emptyEntry, none),
        ⟨fun _ => TxOutcome.reply "N\r", k + 2,
          (s ++ [MECommand channel]) ++ [MNCommand channel]⟩) := rfl

/-- Bulk read against the all-empty device succeeds and fills every slot
with the zero record. -/
theorem ReadMemoryFrom_constN : ∀ (fuel i k : Nat) (s : List String),
    ∃ s2, ReadMemoryFrom i fuel
        ⟨fun _ => TxOutcome.reply "N\r", k, s⟩ =
      (Except.ok (List.replicate fuel emptyEntry),
        ⟨fun _ => TxOutcome.reply "N\r", k + 2 * fuel, s2⟩) := by
  intro fuel
  induction fuel with
  | zero => intro i k s; exact ⟨s, rfl⟩
  | succ f ih =>
    intro i k s
    obtain ⟨s2, ih2⟩ := ih (i + 1) (k + 2) ((s ++ [MECommand i]) ++ [MNCommand i])
    refine ⟨s2, ?_⟩
    unfold ReadMemoryFrom
    dsimp only
    rw [ReadChannel_constN]
    dsimp only
    rw [ih2]
    dsimp only
    rw [List.replicate_succ, show k + 2 + 2 * f = k + 2 * (f + 1) by omega]

/-- C9 counterexample: against a device that reports every channel empty,
`ReadMemory` succeeds, and the slot at position 1 holds the zero record —
its `number` field is 0, not 1, refuting position-assigned numbering for
slots reported empty. -/
theorem C9_counterexample :
    (ReadMemory devN).1 = Except.ok (List.replicate 1000 emptyEntry) ∧
      ((List.replicate 1000 emptyEntry).getD 1 emptyEntry).Number = 0 ∧
      ((List.replicate 1000 emptyEntry).getD 1 emptyEntry).Number ≠ 1 := by
  obtain ⟨s2, h⟩ := ReadMemoryFrom_constN 1000 0 0 []
  have hq : ReadMemory devN =
      (Except.ok (List.replicate 1000 emptyEntry),
        ⟨fun _ => TxOutcome.reply "N\r", 0 + 2 * 1000, s2⟩) := h
  exact ⟨by rw [hq], by decide, by decide⟩

/-- C9 amended: after a successful `ReadMemory`, each of the 1000 slots
holds exactly the record decoded — into a fresh zero record — from the
device's two reply lines for that channel (transactions `2i` and
`2i + 1`); a channel reported empty (`N\r` on both lines) therefore yields
the zero record, whose `number` field is 0, so `number == i` holds only
for slots whose numeric line carries the channel number `i`, not for
positions reported empty. -/
theorem C9_read_memory_slots (o : Nat → TxOutcome) (k : Nat)
    (s : List String) (mem : List MemoryEntry) (d1 : Dev)
    (h : ReadMemory ⟨o, k, s⟩ = (Except.ok mem, d1)) :
    (mem.length = 1000 ∧
      ∀ j, j < 1000 → ∃ chline nameline m1,
        o (k + 2 * j) = TxOutcome.reply chline ∧
        o (k + 2 * j + 1) = TxOutcome.reply nameline ∧
        List.isPrefixOf ['?'] chline.data = false ∧
        List.isPrefixOf ['?'] nameline.data = false ∧
        ReadChannelLine emptyEntry chline = Except.ok m1 ∧
        ReadNameLine m1 nameline = Except.ok (mem.getD j emptyEntry)) ∧
    ReadChannelLine emptyEntry "N\r" = Except.ok emptyEntry ∧
    ReadNameLine emptyEntry "N\r" = Except.ok emptyEntry ∧
    emptyEntry.Number = 0 :=
  ⟨ReadMemoryFrom_ok 1000 0 o k s mem d1 h, rfl, rfl, rfl⟩

/-- Witness for C9 amended: instantiated at the all-empty device; slot 1
is decoded from the two `N\r` replies and is the zero record. -/
theorem C9_read_memory_slots_witness :
    ∃ mem d1, ReadMemory devN = (Except.ok mem, d1) ∧ mem.length = 1000 ∧
      (∃ chline nameline m1,
        devN.outcomes (0 + 2 * 1) = TxOutcome.reply chline ∧
        devN.outcomes (0 + 2 * 1 + 1) = TxOutcome.reply nameline ∧
        List.isPrefixOf ['?'] chline.data = false ∧
        List.isPrefixOf ['?'] nameline.data = false ∧
        ReadChannelLine emptyEntry chline = Except.ok m1 ∧
        ReadNameLine m1 nameline = Except.ok (mem.getD 1 emptyEntry)) ∧
      emptyEntry.Number = 0 := by
  obtain ⟨s2, h⟩ := ReadMemoryFrom_constN 1000 0 0 []
  have hq : ReadMemory devN =
      (Except.ok (List.replicate 1000 emptyEntry),
        ⟨fun _ => TxOutcome.reply "N\r", 0 + 2 * 1000, s2⟩) := h
  have hmain := C9_read_memory_slots devN.outcomes 0 []
    (List.replicate 1000 emptyEntry) _ hq
  exact ⟨List.replicate 1000 emptyEntry, _, hq,
    hmain.1.1, hmain.1.2 1 (by omega), hmain.2.2.2⟩

end Kenwood
